import Mathlib

/-!
Verification of the 2D cross-correlation kernel of the d2l corpus
(conv-layer notebook): the function corr2d, the Conv2D layer forward
pass built on it, and the concrete scenarios exercised in the notebook.

Grids (numpy 2-D arrays of floats) are modelled as lists of rows over an
arbitrary commutative ring, which covers the real numbers the spec
speaks of; every concrete scenario the notebook runs carries exact small
integer values, so those are stated over the integers, where the
arithmetic is exact and computable.  The corr2d loop is embedded
statefully: the state holds the arrays X, K and Y visible to the loop
body, and the body writes one cell of Y per iteration, exactly as the
source does.
-/

/-- A Grid is a 2-D array modelled as a list of rows. -/
abbrev Grid (α : Type) : Type := List (List α)

/-- Height of a grid: numpy shape[0]. -/
def gridH {α : Type} (G : Grid α) : Nat := G.length

/-- Width of a grid: numpy shape[1], the length of the first row
(numpy arrays are rectangular, so any row serves). -/
def gridW {α : Type} (G : Grid α) : Nat := (G.headD []).length

/-- The grid is a rectangular h-by-w array: exactly h rows, every row of
length w.  This is the invariant every numpy 2-D array of that shape
satisfies. -/
def IsRect {α : Type} (G : Grid α) (h w : Nat) : Prop :=
  G.length = h ∧ ∀ row ∈ G, row.length = w

instance {α : Type} (G : Grid α) (h w : Nat) : Decidable (IsRect G h w) := by
  unfold IsRect; infer_instance

section Ops

variable {α : Type} [CommRing α]

/-- Cell read X[i][j], with 0 out of range (all reads made by the
embedded code are in range). -/
def cell (G : Grid α) (i j : Nat) : α := (G.getD i []).getD j 0

/-- np.zeros((r, c)). -/
def zerosGrid (r c : Nat) : Grid α := List.replicate r (List.replicate c 0)

/-- The array write Y[i, j] = v. -/
def setCell (Y : Grid α) (i j : Nat) (v : α) : Grid α :=
  Y.set i ((Y.getD i []).set j v)

/-- The slice X[i:i+h, j:j+w]. -/
def sliceGrid (X : Grid α) (i h j w : Nat) : Grid α :=
  ((X.drop i).take h).map fun row => (row.drop j).take w

/-- Row-level elementwise-product sum, the 1-D core of (A * B).sum(). -/
def dotRow (a b : List α) : α := (List.zipWith (· * ·) a b).sum

/-- (A * B).sum() for same-shape 2-D arrays: elementwise product, summed
over all cells. -/
def prodSum (A B : Grid α) : α := (List.zipWith dotRow A B).sum

/-- The local state of the corr2d loop: the arrays X and K it reads and
the output array Y it writes. -/
structure CorrState (α : Type) where
  X : Grid α
  K : Grid α
  Y : Grid α

/-- One iteration of the corr2d inner loop:
Y[i, j] = (X[i:i+h, j:j+w] * K).sum(). -/
def corr2dStep (h w i j : Nat) (s : CorrState α) : CorrState α :=
  { s with Y := setCell s.Y i j (prodSum (sliceGrid s.X i h j w) s.K) }

/-- The two nested for-loops of corr2d, run from the state holding X, K
and the freshly allocated zeros array Y.  The loop bounds r and c are
Y.shape, fixed at allocation time (no write changes the shape of Y). -/
def corr2dRun (X K : Grid α) (h w r c : Nat) : CorrState α :=
  (List.range r).foldl
    (fun s i => (List.range c).foldl (fun t j => corr2dStep h w i j t) s)
    ⟨X, K, zerosGrid r c⟩

/-- corr2d from the conv-layer notebook:
h, w = K.shape; Y = np.zeros((X.shape[0] - h + 1, X.shape[1] - w + 1));
the nested loops fill Y; return Y.  np.zeros raises when a requested
dimension is negative (Python ints subtract below zero), which the
embedding surfaces as an error value. -/
def corr2d (X K : Grid α) : Except String (Grid α) :=
  let h := gridH K
  let w := gridW K
  let r : Int := (gridH X : Int) - h + 1
  let c : Int := (gridW X : Int) - w + 1
  if r < 0 ∨ c < 0 then
    Except.error "negative dimensions are not allowed"
  else
    Except.ok (corr2dRun X K h w r.toNat c.toNat).Y

/-- numpy transpose of a rectangular array (d2l.transpose). -/
def transpose (X : Grid α) : Grid α :=
  (List.range (gridW X)).map fun j => X.map fun row => row.getD j 0

/-- Elementwise sum of two same-shape grids (numpy + on same shapes). -/
def addGrid (A B : Grid α) : Grid α :=
  List.zipWith (fun r s => List.zipWith (· + ·) r s) A B

/-- Conv2D.forward from the notebook: corr2d(x, weight) + bias, where the
bias has shape (1,) and numpy broadcasting adds its single scalar to
every cell of the cross-correlation output. -/
def Conv2DForward (weight : Grid α) (bias : α) (x : Grid α) :
    Except String (Grid α) :=
  (corr2d x weight).map fun Y => Y.map fun row => row.map fun v => v + bias

end Ops

/-- The 6-by-8 black-and-white image of the notebook:
X = np.ones((6, 8)); X[:, 2:6] = 0.  All values are exact integers. -/
def Xbw : Grid ℤ := List.replicate 6 [1, 1, 0, 0, 0, 0, 1, 1]

/-- The edge-detector kernel of the notebook: K = np.array([[1.0, -1.0]]). -/
def Kedge : Grid ℤ := [[1, -1]]

instance {ε σ : Type} [DecidableEq ε] [DecidableEq σ] :
    DecidableEq (Except ε σ) :=
  fun x y =>
    match x, y with
    | Except.error a, Except.error b =>
        if h : a = b then isTrue (by rw [h]) else isFalse (by simp [h])
    | Except.error _, Except.ok _ => isFalse (by simp)
    | Except.ok _, Except.error _ => isFalse (by simp)
    | Except.ok a, Except.ok b =>
        if h : a = b then isTrue (by rw [h]) else isFalse (by simp [h])

/-- The value the corr2d loop computes for output cell (i, j). -/
def corrCell {α : Type} [CommRing α] (X K : Grid α) (h w i j : Nat) : α :=
  prodSum (sliceGrid X i h j w) K

/-- The output array of corr2d, described extensionally: row i, column j
holds the window product-sum at (i, j). -/
def corrGrid {α : Type} [CommRing α] (X K : Grid α) (h w r c : Nat) : Grid α :=
  (List.range r).map fun i => (List.range c).map fun j => corrCell X K h w i j

section LoopLemmas

variable {α : Type} [CommRing α]

theorem foldl_inner_state (h w i : Nat) (js : List Nat) :
    ∀ s : CorrState α,
      js.foldl (fun t j => corr2dStep h w i j t) s
        = ⟨s.X, s.K,
            js.foldl
              (fun Y j => setCell Y i j (prodSum (sliceGrid s.X i h j w) s.K))
              s.Y⟩ := by
  induction js with
  | nil => intro s; rfl
  | cons j js ih =>
      intro s
      simp only [List.foldl_cons]
      rw [ih]
      rfl

theorem foldl_outer_state (h w c : Nat) (is : List Nat) :
    ∀ s : CorrState α,
      is.foldl
          (fun s i => (List.range c).foldl (fun t j => corr2dStep h w i j t) s) s
        = ⟨s.X, s.K,
            is.foldl
              (fun Y i => (List.range c).foldl
                (fun Y j => setCell Y i j (prodSum (sliceGrid s.X i h j w) s.K)) Y)
              s.Y⟩ := by
  induction is with
  | nil => intro s; rfl
  | cons i is ih =>
      intro s
      simp only [List.foldl_cons]
      rw [foldl_inner_state, ih]

theorem corr2dRun_eq (X K : Grid α) (h w r c : Nat) :
    corr2dRun X K h w r c
      = ⟨X, K,
          (List.range r).foldl
            (fun Y i => (List.range c).foldl
              (fun Y j => setCell Y i j (prodSum (sliceGrid X i h j w) K)) Y)
            (zerosGrid r c)⟩ := by
  unfold corr2dRun
  rw [foldl_outer_state]

end LoopLemmas

theorem set_getD_self {β : Type} (l : List β) (i : Nat) (d : β)
    (hi : i < l.length) : l.set i (l.getD i d) = l := by
  apply List.ext_getElem?
  intro n
  rw [List.getElem?_set]
  split
  · rename_i hin
    subst hin
    simp [List.getD_eq_getElem?_getD, List.getElem?_eq_getElem hi, hi]
  · rfl

theorem foldl_setCell {β : Type} (i : Nat) (g : Nat → β) (js : List Nat) :
    ∀ Y : Grid β, i < Y.length →
      js.foldl (fun Y j => setCell Y i j (g j)) Y
        = Y.set i (js.foldl (fun row j => row.set j (g j)) (Y.getD i [])) := by
  induction js with
  | nil =>
      intro Y hi
      simp only [List.foldl_nil]
      rw [set_getD_self _ _ _ hi]
  | cons j js ih =>
      intro Y hi
      simp only [List.foldl_cons]
      rw [ih _ (by simpa [setCell] using hi)]
      simp only [setCell]
      rw [List.set_set]
      congr 1
      simp [List.getD_eq_getElem?_getD, List.getElem?_set_self hi,
        List.getElem?_eq_getElem hi]

theorem foldl_set_row {β : Type} (g : Nat → β) :
    ∀ (k : Nat) (row : List β), k ≤ row.length →
      (List.range k).foldl (fun row j => row.set j (g j)) row
        = ((List.range k).map g) ++ row.drop k := by
  intro k
  induction k with
  | zero => intro row _; simp
  | succ k ih =>
      intro row hk
      rw [List.range_succ]
      simp only [List.foldl_append, List.foldl_cons, List.foldl_nil,
        List.map_append, List.map_cons, List.map_nil]
      rw [ih row (Nat.le_of_succ_le hk)]
      have hklen : k < row.length := hk
      rw [List.set_append_right _ _ (by simp)]
      have hidx : k - (List.map g (List.range k)).length = 0 := by simp
      rw [hidx, List.drop_eq_getElem_cons hklen, List.set_cons_zero,
        List.append_assoc, List.singleton_append]

theorem foldl_outer_grid {β : Type} (g : Nat → Nat → β) (c : Nat) :
    ∀ (k : Nat) (Y : Grid β), k ≤ Y.length →
      (List.range k).foldl
          (fun Y i => (List.range c).foldl (fun Y j => setCell Y i j (g i j)) Y)
          Y
        = ((List.range k).map fun i =>
            (List.range c).foldl (fun row j => row.set j (g i j)) (Y.getD i []))
          ++ Y.drop k := by
  intro k
  induction k with
  | zero => intro Y _; simp
  | succ k ih =>
      intro Y hk
      rw [List.range_succ]
      simp only [List.foldl_append, List.foldl_cons, List.foldl_nil,
        List.map_append, List.map_cons, List.map_nil]
      rw [ih Y (Nat.le_of_succ_le hk)]
      have hklen : k < Y.length := hk
      have hplen : k <
          (((List.range k).map fun i =>
            (List.range c).foldl (fun row j => row.set j (g i j)) (Y.getD i []))
          ++ Y.drop k).length := by
        simp
        omega
      rw [foldl_setCell k (g k) (List.range c) _ hplen]
      have hgetD :
          ((((List.range k).map fun i =>
              (List.range c).foldl (fun row j => row.set j (g i j)) (Y.getD i []))
            ++ Y.drop k)).getD k []
            = Y.getD k [] := by
        rw [List.getD_eq_getElem?_getD, List.getElem?_append_right (by simp)]
        simp [List.getElem?_drop, List.getD_eq_getElem?_getD]
      rw [hgetD]
      rw [List.set_append_right _ _ (by simp)]
      have hidx : k -
          ((List.range k).map fun i =>
            (List.range c).foldl (fun row j => row.set j (g i j))
              (Y.getD i [])).length = 0 := by simp
      rw [hidx, List.drop_eq_getElem_cons hklen, List.set_cons_zero,
        List.append_assoc, List.singleton_append]

theorem corr2dRun_Y {α : Type} [CommRing α] (X K : Grid α) (h w r c : Nat) :
    (corr2dRun X K h w r c).Y = corrGrid X K h w r c := by
  rw [corr2dRun_eq]
  show (List.range r).foldl _ (zerosGrid r c) = _
  rw [foldl_outer_grid (fun i j => prodSum (sliceGrid X i h j w) K) c r
    (zerosGrid r c) (by simp [zerosGrid])]
  unfold corrGrid zerosGrid
  rw [List.drop_replicate]
  simp only [Nat.sub_self, List.replicate_zero, List.append_nil]
  apply List.map_congr_left
  intro i hi
  have hir : i < r := List.mem_range.mp hi
  have hgd : (List.replicate r (List.replicate c (0:α))).getD i []
      = List.replicate c 0 := by
    rw [List.getD_eq_getElem?_getD, List.getElem?_replicate_of_lt hir]
    rfl
  rw [hgd, foldl_set_row _ c _ (by simp)]
  simp [corrCell]

theorem corr2d_eq_ok {α : Type} [CommRing α] (X K : Grid α)
    (hr : 0 ≤ (gridH X : Int) - gridH K + 1)
    (hc : 0 ≤ (gridW X : Int) - gridW K + 1) :
    corr2d X K
      = Except.ok (corrGrid X K (gridH K) (gridW K)
          ((gridH X : Int) - gridH K + 1).toNat
          ((gridW X : Int) - gridW K + 1).toNat) := by
  unfold corr2d
  rw [if_neg (by omega)]
  rw [corr2dRun_Y]

theorem gridW_of_rect {α : Type} {G : Grid α} {h w : Nat} (hpos : 0 < h)
    (hG : IsRect G h w) : gridW G = w := by
  match G, hG with
  | [], hG => exact absurd hG.1 (by simp; omega)
  | row :: rest, hG => exact hG.2 row (List.mem_cons_self _ _)

theorem corr2d_ok_rect {α : Type} [CommRing α] (X K : Grid α) (H W kh kw : Nat)
    (hX : IsRect X H W) (hK : IsRect K kh kw) (hkh : 0 < kh)
    (hh : kh ≤ H) (hww : kw ≤ W) :
    corr2d X K = Except.ok (corrGrid X K kh kw (H - kh + 1) (W - kw + 1)) := by
  have h1 : gridH X = H := hX.1
  have h2 : gridH K = kh := hK.1
  have h3 : gridW K = kw := gridW_of_rect hkh hK
  have h4 : gridW X = W := gridW_of_rect (lt_of_lt_of_le hkh hh) hX
  have base := corr2d_eq_ok X K (by rw [h1, h2]; omega)
    (by rw [h3, h4]; omega)
  rw [h1, h2, h3, h4] at base
  have e1 : ((H : Int) - kh + 1).toNat = H - kh + 1 := by omega
  have e2 : ((W : Int) - kw + 1).toNat = W - kw + 1 := by omega
  rw [e1, e2] at base
  exact base

theorem cell_corrGrid {α : Type} [CommRing α] (X K : Grid α)
    (h w r c i j : Nat) (hi : i < r) (hj : j < c) :
    cell (corrGrid X K h w r c) i j = corrCell X K h w i j := by
  have hrow : (corrGrid X K h w r c).getD i []
      = (List.range c).map fun j => corrCell X K h w i j := by
    unfold corrGrid
    rw [List.getD_eq_getElem?_getD, List.getElem?_map, List.getElem?_range hi]
    rfl
  unfold cell
  rw [hrow, List.getD_eq_getElem?_getD, List.getElem?_map,
    List.getElem?_range hj]
  rfl

theorem dotRow_eq_sum {α : Type} [CommRing α] :
    ∀ (n : Nat) (a b : List α), a.length = n → n ≤ b.length →
      dotRow a b = ∑ q ∈ Finset.range n, a.getD q 0 * b.getD q 0 := by
  intro n
  induction n with
  | zero =>
      intro a b ha _
      rw [List.length_eq_zero] at ha
      subst ha
      simp [dotRow]
  | succ n ih =>
      intro a b ha hb
      match a, b with
      | [], _ => simp at ha
      | x :: a, [] => simp at hb
      | x :: a, y :: b =>
          have ha2 : a.length = n := by simpa using ha
          have hb2 : n ≤ b.length := by simp at hb; omega
          rw [Finset.sum_range_succ']
          simp only [List.getD_cons_succ, List.getD_cons_zero]
          rw [← ih a b ha2 hb2]
          simp [dotRow, add_comm]

theorem prodSum_eq_sum {α : Type} [CommRing α] :
    ∀ (m : Nat) (A B : Grid α) (n : Nat), A.length = m → m ≤ B.length →
      (∀ row ∈ A, row.length = n) → (∀ row ∈ B, n ≤ row.length) →
      prodSum A B = ∑ p ∈ Finset.range m, ∑ q ∈ Finset.range n,
        cell A p q * cell B p q := by
  intro m
  induction m with
  | zero =>
      intro A B n hA _ _ _
      rw [List.length_eq_zero] at hA
      subst hA
      simp [prodSum]
  | succ m ih =>
      intro A B n hA hB hArows hBrows
      match A, B with
      | [], _ => simp at hA
      | a :: A, [] => simp at hB
      | a :: A, b :: B =>
          have hA2 : A.length = m := by simpa using hA
          have hB2 : m ≤ B.length := by simp at hB; omega
          rw [Finset.sum_range_succ']
          have tail := ih A B n hA2 hB2
            (fun row hr => hArows row (List.mem_cons_of_mem _ hr))
            (fun row hr => hBrows row (List.mem_cons_of_mem _ hr))
          have head := dotRow_eq_sum n a b
            (hArows a (List.mem_cons_self _ _))
            (hBrows b (List.mem_cons_self _ _))
          simp only [cell, List.getD_cons_succ, List.getD_cons_zero]
          simp only [cell] at tail
          rw [← tail, ← head]
          simp [prodSum, add_comm]

theorem length_sliceGrid {α : Type} (X : Grid α) (i h j w : Nat)
    (hih : i + h ≤ X.length) : (sliceGrid X i h j w).length = h := by
  simp [sliceGrid]
  omega

theorem rows_sliceGrid {α : Type} (X : Grid α) (W i h j w : Nat)
    (hrows : ∀ row ∈ X, row.length = W) (hjw : j + w ≤ W) :
    ∀ row ∈ sliceGrid X i h j w, row.length = w := by
  intro row hrow
  simp only [sliceGrid, List.mem_map] at hrow
  obtain ⟨r, hr, rfl⟩ := hrow
  have hrX : r ∈ X := List.mem_of_mem_drop (List.mem_of_mem_take hr)
  have hlen := hrows r hrX
  simp [List.length_take, List.length_drop, hlen]
  omega

theorem cell_sliceGrid {α : Type} [CommRing α] (X : Grid α)
    (H W i h j w p q : Nat)
    (hX : IsRect X H W) (hp : p < h) (hq : q < w)
    (hih : i + h ≤ H) (hjw : j + w ≤ W) :
    cell (sliceGrid X i h j w) p q = cell X (i + p) (j + q) := by
  obtain ⟨hlen, hrows⟩ := hX
  have hip : i + p < X.length := by omega
  have hrowlen : (X[i + p]).length = W := hrows _ (List.getElem_mem hip)
  have hjq : j + q < (X[i + p]).length := by omega
  have hrow : (sliceGrid X i h j w).getD p [] = ((X[i + p]).drop j).take w := by
    unfold sliceGrid
    rw [List.getD_eq_getElem?_getD, List.getElem?_map,
      List.getElem?_take_of_lt hp, List.getElem?_drop,
      List.getElem?_eq_getElem hip]
    rfl
  have hXrow : X.getD (i + p) [] = X[i + p] := by
    rw [List.getD_eq_getElem?_getD, List.getElem?_eq_getElem hip]
    rfl
  unfold cell
  rw [hrow, hXrow]
  simp only [List.getD_eq_getElem?_getD]
  rw [List.getElem?_take_of_lt hq, List.getElem?_drop]

theorem corrCell_eq_sum {α : Type} [CommRing α] (X K : Grid α)
    (H W kh kw i j : Nat) (hX : IsRect X H W) (hK : IsRect K kh kw)
    (hi : i + kh ≤ H) (hj : j + kw ≤ W) :
    corrCell X K kh kw i j
      = ∑ p ∈ Finset.range kh, ∑ q ∈ Finset.range kw,
          cell X (i + p) (j + q) * cell K p q := by
  unfold corrCell
  rw [prodSum_eq_sum kh (sliceGrid X i kh j kw) K kw
    (length_sliceGrid X i kh j kw (by rw [hX.1]; exact hi))
    (le_of_eq hK.1.symm)
    (rows_sliceGrid X W i kh j kw hX.2 hj)
    (fun row hr => le_of_eq (hK.2 row hr).symm)]
  apply Finset.sum_congr rfl
  intro p hp
  apply Finset.sum_congr rfl
  intro q hq
  rw [cell_sliceGrid X H W i kh j kw p q hX
    (Finset.mem_range.mp hp) (Finset.mem_range.mp hq) hi hj]

/-- C1: for every rectangular input X of shape (H, W) and nonempty kernel
K of shape (kh, kw) with kh ≤ H and kw ≤ W, corr2d returns a grid Y such
that for every valid output coordinate (i, j), Y[i][j] equals the double
sum over p < kh and q < kw of X[i+p][j+q] * K[p][q]. -/
theorem corr2d_cell_formula {α : Type} [CommRing α] (X K : Grid α)
    (H W kh kw : Nat) (hX : IsRect X H W) (hK : IsRect K kh kw)
    (hkh : 0 < kh) (hh : kh ≤ H) (hw : kw ≤ W) (Y : Grid α)
    (hY : corr2d X K = Except.ok Y) (i j : Nat)
    (hi : i < H - kh + 1) (hj : j < W - kw + 1) :
    cell Y i j = ∑ p ∈ Finset.range kh, ∑ q ∈ Finset.range kw,
      cell X (i + p) (j + q) * cell K p q := by
  rw [corr2d_ok_rect X K H W kh kw hX hK hkh hh hw] at hY
  injection hY with hYeq
  rw [← hYeq, cell_corrGrid X K kh kw _ _ i j hi hj]
  exact corrCell_eq_sum X K H W kh kw i j hX hK (by omega) (by omega)

/-- Witness for C1 at the notebook inputs, output cell (0, 0). -/
theorem corr2d_cell_formula_witness :
    IsRect ([[0, 1, 2], [3, 4, 5], [6, 7, 8]] : Grid ℤ) 3 3 ∧
    cell ([[19, 25], [37, 43]] : Grid ℤ) 0 0
      = ∑ p ∈ Finset.range 2, ∑ q ∈ Finset.range 2,
          cell ([[0, 1, 2], [3, 4, 5], [6, 7, 8]] : Grid ℤ) (0 + p) (0 + q)
            * cell ([[0, 1], [2, 3]] : Grid ℤ) p q :=
  ⟨by decide,
    corr2d_cell_formula [[0, 1, 2], [3, 4, 5], [6, 7, 8]] [[0, 1], [2, 3]]
      3 3 2 2 (by decide) (by decide) (by decide) (by decide) (by decide)
      [[19, 25], [37, 43]] (by decide) 0 0 (by decide) (by decide)⟩

/-- C2: for rectangular X of shape (H, W) and nonempty kernel K of shape
(kh, kw) with kh ≤ H and kw ≤ W, the output of corr2d has shape exactly
(H - kh + 1, W - kw + 1). -/
theorem corr2d_output_shape {α : Type} [CommRing α] (X K : Grid α)
    (H W kh kw : Nat) (hX : IsRect X H W) (hK : IsRect K kh kw)
    (hkh : 0 < kh) (hh : kh ≤ H) (hw : kw ≤ W) (Y : Grid α)
    (hY : corr2d X K = Except.ok Y) :
    IsRect Y (H - kh + 1) (W - kw + 1) := by
  rw [corr2d_ok_rect X K H W kh kw hX hK hkh hh hw] at hY
  injection hY with hYeq
  rw [← hYeq]
  constructor
  · simp [corrGrid]
  · intro row hrow
    simp only [corrGrid, List.mem_map] at hrow
    obtain ⟨i, hi, rfl⟩ := hrow
    simp

/-- Witness for C2 at the notebook inputs: the output is 2 by 2. -/
theorem corr2d_output_shape_witness :
    (0 : Nat) < 2 ∧ IsRect ([[19, 25], [37, 43]] : Grid ℤ) 2 2 :=
  ⟨by decide,
    corr2d_output_shape [[0, 1, 2], [3, 4, 5], [6, 7, 8]] [[0, 1], [2, 3]]
      3 3 2 2 (by decide) (by decide) (by decide) (by decide) (by decide)
      [[19, 25], [37, 43]] (by decide)⟩

/-- C5: degenerate case, kernel of the same shape as the input: the output
is the 1-by-1 grid holding the full elementwise-product-sum of X and K
over the entire input. -/
theorem corr2d_degenerate {α : Type} [CommRing α] (X K : Grid α)
    (H W : Nat) (hX : IsRect X H W) (hK : IsRect K H W) (hH : 0 < H) :
    corr2d X K
      = Except.ok [[∑ p ∈ Finset.range H, ∑ q ∈ Finset.range W,
          cell X p q * cell K p q]] := by
  rw [corr2d_ok_rect X K H W H W hX hK hH le_rfl le_rfl]
  have h1 : H - H + 1 = 1 := by omega
  have h2 : W - W + 1 = 1 := by omega
  rw [h1, h2]
  unfold corrGrid
  have hr1 : List.range 1 = [0] := rfl
  rw [hr1]
  simp only [List.map_cons, List.map_nil]
  rw [corrCell_eq_sum X K H W H W 0 0 hX hK (by omega) (by omega)]
  simp

/-- Witness for C5 on a concrete 2-by-2 pair. -/
theorem corr2d_degenerate_witness :
    IsRect ([[1, 2], [3, 4]] : Grid ℤ) 2 2 ∧
    corr2d ([[1, 2], [3, 4]] : Grid ℤ) [[5, 6], [7, 8]]
      = Except.ok [[∑ p ∈ Finset.range 2, ∑ q ∈ Finset.range 2,
          cell ([[1, 2], [3, 4]] : Grid ℤ) p q
            * cell ([[5, 6], [7, 8]] : Grid ℤ) p q]] :=
  ⟨by decide,
    corr2d_degenerate [[1, 2], [3, 4]] [[5, 6], [7, 8]] 2 2
      (by decide) (by decide) (by decide)⟩

/-- C6: the validation scenario of the notebook:
corr2d([[0,1,2],[3,4,5],[6,7,8]], [[0,1],[2,3]]) = [[19,25],[37,43]]. -/
theorem corr2d_concrete_example :
    corr2d ([[0, 1, 2], [3, 4, 5], [6, 7, 8]] : Grid ℤ) [[0, 1], [2, 3]]
      = Except.ok [[19, 25], [37, 43]] := by decide

/-- C7: the edge-detection scenario: on the 6-by-8 black-and-white image
with kernel [[1, -1]], the output is 6 by 7, with 1 in the white-to-black
transition column (column 1), -1 in the black-to-white transition column
(column 5), and 0 everywhere else. -/
theorem corr2d_edge_detection :
    corr2d Xbw Kedge = Except.ok (List.replicate 6 [0, 1, 0, 0, 0, -1, 0])
    ∧ IsRect (List.replicate 6 ([0, 1, 0, 0, 0, -1, 0] : List ℤ)) 6 7
    ∧ ∀ i < 6, ∀ j < 7,
        cell (List.replicate 6 ([0, 1, 0, 0, 0, -1, 0] : List ℤ)) i j
          = if j = 1 then 1 else if j = 5 then -1 else 0 :=
  ⟨by decide, by decide, by decide⟩

/-- C8 counterexample: on the transposed 8-by-6 image with kernel
[[1, -1]] the output is the all-zero 8-by-5 grid, and that grid does not
have the shape 8-by-7 the claim states. -/
theorem corr2d_transpose_shape_counterexample :
    corr2d (transpose Xbw) Kedge = Except.ok (zerosGrid 8 5)
    ∧ ¬ IsRect (zerosGrid 8 5 : Grid ℤ) 8 7 :=
  ⟨by decide, by decide⟩

/-- C8 amended: corr2d(transpose(X), K) is the all-zero grid, of shape
8 by 5 (the transposed input is 8 by 6, so the output width is
6 - 2 + 1 = 5). -/
theorem corr2d_transpose_zero :
    corr2d (transpose Xbw) Kedge = Except.ok (zerosGrid 8 5)
    ∧ IsRect (zerosGrid 8 5 : Grid ℤ) 8 5 :=
  ⟨by decide, by decide⟩

theorem gridW_le_of_rect {α : Type} {G : Grid α} {h w : Nat}
    (hG : IsRect G h w) : gridW G ≤ w := by
  match G with
  | [] => simp [gridW]
  | row :: rest => exact le_of_eq (hG.2 row (List.mem_cons_self _ _))

/-- C3: when the kernel does not fit within the input even once (kh > H or
kw > W), corr2d either fails with the shape error np.zeros raises on a
negative dimension, or returns a well-defined empty grid of zero height
or zero width; the caller receives one of those two outcomes and nothing
else. -/
theorem corr2d_kernel_too_large {α : Type} [CommRing α] (X K : Grid α)
    (H W kh kw : Nat) (hX : IsRect X H W) (hK : IsRect K kh kw)
    (hkh : 0 < kh) (hbig : H < kh ∨ W < kw) :
    corr2d X K = Except.error "negative dimensions are not allowed"
    ∨ ∃ Y, corr2d X K = Except.ok Y
        ∧ (Y.length = 0 ∨ ∀ row ∈ Y, row.length = 0) := by
  have h1 : gridH X = H := hX.1
  have h2 : gridH K = kh := hK.1
  have h3 : gridW K = kw := gridW_of_rect hkh hK
  have h4 : gridW X ≤ W := gridW_le_of_rect hX
  by_cases herr : (gridH X : Int) - gridH K + 1 < 0
      ∨ (gridW X : Int) - gridW K + 1 < 0
  · left
    unfold corr2d
    rw [if_pos herr]
  · right
    push_neg at herr
    refine ⟨_, corr2d_eq_ok X K herr.1 herr.2, ?_⟩
    rcases hbig with hb | hb
    · left
      simp only [corrGrid, List.length_map, List.length_range]
      omega
    · right
      intro row hrow
      simp only [corrGrid, List.mem_map] at hrow
      obtain ⟨i, hi, rfl⟩ := hrow
      simp only [List.length_map, List.length_range]
      omega

/-- Witness for C3: a 2-by-1 kernel on a 1-by-1 input yields the empty
outcome (zero output rows). -/
theorem corr2d_kernel_too_large_witness :
    IsRect ([[1]] : Grid ℤ) 1 1 ∧
    (corr2d ([[1]] : Grid ℤ) [[1], [2]]
        = Except.error "negative dimensions are not allowed"
     ∨ ∃ Y, corr2d ([[1]] : Grid ℤ) [[1], [2]] = Except.ok Y
        ∧ (Y.length = 0 ∨ ∀ row ∈ Y, row.length = 0)) :=
  ⟨by decide,
    corr2d_kernel_too_large [[1]] [[1], [2]] 1 1 2 1
      (by decide) (by decide) (by decide) (by decide)⟩

theorem dotRow_cons {α : Type} [CommRing α] (x y : α) (a b : List α) :
    dotRow (x :: a) (y :: b) = x * y + dotRow a b := by
  simp [dotRow]

theorem prodSum_cons {α : Type} [CommRing α] (a x : List α) (A Xs : Grid α) :
    prodSum (a :: A) (x :: Xs) = dotRow a x + prodSum A Xs := by
  simp [prodSum]

theorem dotRow_add_right {α : Type} [CommRing α] :
    ∀ (a b c : List α), b.length = c.length →
      dotRow a (List.zipWith (· + ·) b c) = dotRow a b + dotRow a c := by
  intro a
  induction a with
  | nil => intro b c _; simp [dotRow]
  | cons x a ih =>
      intro b c hbc
      match b, c with
      | [], [] => simp [dotRow]
      | [], z :: c => simp at hbc
      | y :: b, [] => simp at hbc
      | y :: b, z :: c =>
          have hbc2 : b.length = c.length := by simpa using hbc
          rw [List.zipWith_cons_cons, dotRow_cons, dotRow_cons, dotRow_cons,
            ih b c hbc2]
          ring

theorem prodSum_add_right {α : Type} [CommRing α] :
    ∀ (A B C : Grid α),
      List.Forall₂ (fun (b c : List α) => b.length = c.length) B C →
      prodSum A (addGrid B C) = prodSum A B + prodSum A C := by
  intro A
  induction A with
  | nil => intro B C _; simp [prodSum]
  | cons a A ih =>
      intro B C hF
      cases hF with
      | nil => simp [prodSum, addGrid]
      | cons hbc htail =>
          rename_i b c B C
          have hstep : addGrid (b :: B) (c :: C)
              = List.zipWith (· + ·) b c :: addGrid B C := rfl
          rw [hstep, prodSum_cons, prodSum_cons, prodSum_cons,
            dotRow_add_right a b c hbc, ih B C htail]
          ring

theorem forall2_of_rect {α : Type} :
    ∀ (B C : Grid α) (w : Nat), B.length = C.length →
      (∀ row ∈ B, row.length = w) → (∀ row ∈ C, row.length = w) →
      List.Forall₂ (fun (b c : List α) => b.length = c.length) B C := by
  intro B
  induction B with
  | nil =>
      intro C w hlen _ _
      match C with
      | [] => exact List.Forall₂.nil
      | c :: C => simp at hlen
  | cons b B ih =>
      intro C w hlen hB hC
      match C with
      | [] => simp at hlen
      | c :: C =>
          refine List.Forall₂.cons ?_ ?_
          · rw [hB b (List.mem_cons_self _ _), hC c (List.mem_cons_self _ _)]
          · exact ih C w (by simpa using hlen)
              (fun r hr => hB r (List.mem_cons_of_mem _ hr))
              (fun r hr => hC r (List.mem_cons_of_mem _ hr))

theorem isRect_addGrid {α : Type} [CommRing α] (B C : Grid α) (h w : Nat)
    (hB : IsRect B h w) (hC : IsRect C h w) : IsRect (addGrid B C) h w := by
  constructor
  · simp [addGrid, List.length_zipWith, hB.1, hC.1]
  · intro row hrow
    rw [List.mem_iff_getElem] at hrow
    obtain ⟨i, hilen, rfl⟩ := hrow
    unfold addGrid at hilen ⊢
    rw [List.getElem_zipWith]
    have hiB : i < B.length := by
      simp only [List.length_zipWith] at hilen
      omega
    have hiC : i < C.length := by
      simp only [List.length_zipWith] at hilen
      omega
    rw [List.length_zipWith, hB.2 _ (List.getElem_mem hiB),
      hC.2 _ (List.getElem_mem hiC)]
    simp

theorem zipWith_map_same {β γ : Type} (l : List β) (f g : β → γ)
    (op : γ → γ → γ) :
    List.zipWith op (l.map f) (l.map g) = l.map fun x => op (f x) (g x) := by
  induction l with
  | nil => rfl
  | cons x l ih => simp [ih]

theorem corrGrid_add_kernel {α : Type} [CommRing α] (X K1 K2 : Grid α)
    (h w r c : Nat)
    (hF : List.Forall₂ (fun (b c : List α) => b.length = c.length) K1 K2) :
    corrGrid X (addGrid K1 K2) h w r c
      = addGrid (corrGrid X K1 h w r c) (corrGrid X K2 h w r c) := by
  unfold corrGrid addGrid
  rw [zipWith_map_same]
  apply List.map_congr_left
  intro i _
  rw [zipWith_map_same]
  apply List.map_congr_left
  intro j _
  unfold corrCell
  exact prodSum_add_right (sliceGrid X i h j w) K1 K2 hF

/-- C4: corr2d is linear in its kernel argument: for every rectangular
input X and every pair of same-shape nonempty kernels K1, K2 that fit in
X, all three calls succeed and
corr2d(X, K1 + K2) = corr2d(X, K1) + corr2d(X, K2) elementwise. -/
theorem corr2d_linear_in_kernel {α : Type} [CommRing α] (X K1 K2 : Grid α)
    (H W kh kw : Nat) (hX : IsRect X H W) (hK1 : IsRect K1 kh kw)
    (hK2 : IsRect K2 kh kw) (hkh : 0 < kh) (hh : kh ≤ H) (hw : kw ≤ W) :
    ∃ Y1 Y2 Y12,
      corr2d X K1 = Except.ok Y1 ∧ corr2d X K2 = Except.ok Y2 ∧
      corr2d X (addGrid K1 K2) = Except.ok Y12 ∧
      Y12 = addGrid Y1 Y2 := by
  refine ⟨_, _, _, corr2d_ok_rect X K1 H W kh kw hX hK1 hkh hh hw,
    corr2d_ok_rect X K2 H W kh kw hX hK2 hkh hh hw,
    corr2d_ok_rect X (addGrid K1 K2) H W kh kw hX
      (isRect_addGrid K1 K2 kh kw hK1 hK2) hkh hh hw, ?_⟩
  exact corrGrid_add_kernel X K1 K2 kh kw _ _
    (forall2_of_rect K1 K2 kw (by rw [hK1.1, hK2.1]) hK1.2 hK2.2)

/-- Witness for C4 at the notebook input with two concrete kernels. -/
theorem corr2d_linear_in_kernel_witness :
    IsRect ([[0, 1], [2, 3]] : Grid ℤ) 2 2 ∧
    (∃ Y1 Y2 Y12,
      corr2d ([[0, 1, 2], [3, 4, 5], [6, 7, 8]] : Grid ℤ) [[0, 1], [2, 3]]
          = Except.ok Y1 ∧
      corr2d ([[0, 1, 2], [3, 4, 5], [6, 7, 8]] : Grid ℤ) [[1, 0], [0, 1]]
          = Except.ok Y2 ∧
      corr2d ([[0, 1, 2], [3, 4, 5], [6, 7, 8]] : Grid ℤ)
          (addGrid [[0, 1], [2, 3]] [[1, 0], [0, 1]]) = Except.ok Y12 ∧
      Y12 = addGrid Y1 Y2) :=
  ⟨by decide,
    corr2d_linear_in_kernel [[0, 1, 2], [3, 4, 5], [6, 7, 8]]
      [[0, 1], [2, 3]] [[1, 0], [0, 1]] 3 3 2 2
      (by decide) (by decide) (by decide) (by decide) (by decide) (by decide)⟩

theorem isRect_corrGrid {α : Type} [CommRing α] (X K : Grid α)
    (h w r c : Nat) : IsRect (corrGrid X K h w r c) r c := by
  constructor
  · simp [corrGrid]
  · intro row hrow
    simp only [corrGrid, List.mem_map] at hrow
    obtain ⟨i, _, rfl⟩ := hrow
    simp

theorem cell_map_add {α : Type} [CommRing α] (Y : Grid α) (b : α)
    (r c i j : Nat) (hY : IsRect Y r c) (hi : i < r) (hj : j < c) :
    cell (Y.map fun row => row.map fun v => v + b) i j = cell Y i j + b := by
  have hiY : i < Y.length := by rw [hY.1]; exact hi
  have hrow : (Y.map fun row => row.map fun v => v + b).getD i []
      = (Y[i]).map fun v => v + b := by
    rw [List.getD_eq_getElem?_getD, List.getElem?_map,
      List.getElem?_eq_getElem hiY]
    rfl
  have hYrow : Y.getD i [] = Y[i] := by
    rw [List.getD_eq_getElem?_getD, List.getElem?_eq_getElem hiY]
    rfl
  have hjr : j < (Y[i]).length := by
    rw [hY.2 _ (List.getElem_mem hiY)]
    exact hj
  unfold cell
  rw [hrow, hYrow]
  rw [List.getD_eq_getElem?_getD, List.getElem?_map,
    List.getElem?_eq_getElem hjr]
  rw [List.getD_eq_getElem?_getD, List.getElem?_eq_getElem hjr]
  rfl

/-- C10: the Conv2D forward pass equals cross-correlation plus a uniform
scalar bias: whenever corr2d(x, weight) succeeds with output Y and the
forward pass succeeds with output F, F has the cross-correlation output
shape and every cell of F is the corresponding cell of Y plus b. -/
theorem conv2DForward_eq_corr_plus_bias {α : Type} [CommRing α]
    (x weight : Grid α) (b : α) (H W kh kw : Nat)
    (hX : IsRect x H W) (hK : IsRect weight kh kw) (hkh : 0 < kh)
    (hh : kh ≤ H) (hw : kw ≤ W) (Y F : Grid α)
    (hY : corr2d x weight = Except.ok Y)
    (hF : Conv2DForward weight b x = Except.ok F) :
    IsRect F (H - kh + 1) (W - kw + 1) ∧
    ∀ i < H - kh + 1, ∀ j < W - kw + 1, cell F i j = cell Y i j + b := by
  unfold Conv2DForward at hF
  rw [hY] at hF
  have hmap : (Except.ok Y : Except String (Grid α)).map
      (fun Y => Y.map fun row => row.map fun v => v + b)
      = Except.ok (Y.map fun row => row.map fun v => v + b) := rfl
  rw [hmap] at hF
  injection hF with hFeq
  have hYrect : IsRect Y (H - kh + 1) (W - kw + 1) := by
    rw [corr2d_ok_rect x weight H W kh kw hX hK hkh hh hw] at hY
    injection hY with hYeq
    rw [← hYeq]
    exact isRect_corrGrid x weight kh kw _ _
  constructor
  · rw [← hFeq]
    constructor
    · simp [hYrect.1]
    · intro row hrow
      simp only [List.mem_map] at hrow
      obtain ⟨orig, ho, rfl⟩ := hrow
      simp [hYrect.2 orig ho]
  · intro i hi j hj
    rw [← hFeq, cell_map_add Y b (H - kh + 1) (W - kw + 1) i j hYrect hi hj]

/-- Witness for C10 at the notebook input with bias 5. -/
theorem conv2DForward_eq_corr_plus_bias_witness :
    IsRect ([[0, 1], [2, 3]] : Grid ℤ) 2 2 ∧
    (IsRect ([[24, 30], [42, 48]] : Grid ℤ) 2 2 ∧
     ∀ i < 2, ∀ j < 2,
       cell ([[24, 30], [42, 48]] : Grid ℤ) i j
         = cell ([[19, 25], [37, 43]] : Grid ℤ) i j + 5) :=
  ⟨by decide,
    conv2DForward_eq_corr_plus_bias [[0, 1, 2], [3, 4, 5], [6, 7, 8]]
      [[0, 1], [2, 3]] 5 3 3 2 2 (by decide) (by decide) (by decide)
      (by decide) (by decide) [[19, 25], [37, 43]] [[24, 30], [42, 48]]
      (by decide) (by decide)⟩

/-- C9: the corr2d loop body writes only into the freshly allocated output
array Y: after the full run of both loops, the X and K components of the
loop state are exactly the arguments, so the caller's inputs are
unchanged and corr2d is a pure function of its argument values. -/
theorem corr2d_inputs_unchanged {α : Type} [CommRing α] (X K : Grid α)
    (h w r c : Nat) :
    (corr2dRun X K h w r c).X = X ∧ (corr2dRun X K h w r c).K = K := by
  rw [corr2dRun_eq]
  exact ⟨rfl, rfl⟩
